import Mathlib

/-!
Verification development for the KeyMaster API-key service.

Strings are modelled as lists of characters. Python string operations used by
the source (startswith, split with a maxsplit bound, f-string concatenation)
are embedded as executable functions below. Timestamps are modelled as
integers (seconds since epoch); the ISO-8601 rendering of the last-used
timestamp is abstracted to the numeric time, since no property depends on its
textual form. Store round-trips are modelled by explicit state passing over a
Store record; the possibility of a store exception on each kind of operation
is an explicit flag of the evaluation context, matching the try/except blocks
of the source.
-/

set_option maxRecDepth 4096

abbrev Str := List Char

/-- Python s.startswith(pre), by structural recursion on both lists. -/
def startswith : Str → Str → Bool
  | _, [] => true
  | [], _ :: _ => false
  | c :: cs, p :: ps => c = p && startswith cs ps

/-- Split a list at the first occurrence of sep, if any. -/
def splitFirst (sep : Char) : Str → Option (Str × Str)
  | [] => none
  | c :: cs =>
    if c = sep then some ([], cs)
    else
      match splitFirst sep cs with
      | none => none
      | some (a, b) => some (c :: a, b)

/-- Python s.split(sep, maxsplit): at most maxsplit splits, so at most
maxsplit + 1 resulting segments; the last segment keeps any remaining
separators. -/
def pysplit (sep : Char) : Nat → Str → List Str
  | 0, s => [s]
  | n + 1, s =>
    match splitFirst sep s with
    | none => [s]
    | some (a, b) => a :: pysplit sep n b

/-- Join segments back with a dot separator (inverse of splitting on dots). -/
def joinDots : List Str → Str
  | [] => []
  | [x] => x
  | x :: y :: xs => x ++ '.' :: joinDots (y :: xs)

/-- The literal wire-format header sk-proj. of the credential codec. -/
def skprojHeader : Str := "sk-proj.".data

/-- models.ParsedAPIKey: the three components of a parsed credential. -/
structure ParsedAPIKey where
  project_id : Str
  key_id : Str
  secret : Str
deriving DecidableEq

/-- models.ParsedAPIKey.parse: reject unless the string starts with sk-proj.;
split on dots with maxsplit 3; reject unless exactly four parts result; the
components are parts one to three. Python raises ValueError on rejection,
modelled as none. -/
def ParsedAPIKey.parse (api_key : Str) : Option ParsedAPIKey :=
  if startswith api_key skprojHeader = false then none
  else
    match pysplit '.' 3 api_key with
    | [_, p1, p2, p3] => some ⟨p1, p2, p3⟩
    | _ => none

/-- models.ParsedAPIKey.format_key: the f-string
sk-proj.{project_id}.{key_id}.{secret}. -/
def ParsedAPIKey.format_key (p : ParsedAPIKey) : Str :=
  skprojHeader ++ p.project_id ++ '.' :: p.key_id ++ '.' :: p.secret

/-- security.generate_key_id output shape: the literal k_ followed by seven
characters from the ASCII alphanumeric alphabet. -/
def isGeneratedKeyId (kid : Str) : Bool :=
  startswith kid "k_".data
    && (kid.drop 2).length == 7 && (kid.drop 2).all Char.isAlphanum

/-- security.generate_secret alphabet: ASCII letters, digits, dash and
underscore. -/
def secretAlphabet (c : Char) : Bool :=
  c.isAlphanum || c = '-' || c = '_'

/-- security.generate_secret output shape: the requested number of characters,
all from the URL-safe alphabet. -/
def isGeneratedSecret (length : Nat) (s : Str) : Bool :=
  s.length == length && s.all secretAlphabet

/-- An encoded Argon2 hash as produced by security.hash_password: the encoded
form the argon2 library emits always begins with a dollar sign and the word
argon2. A string without that shape cannot be parsed by the library. -/
def isEncodedArgonHash (h : Str) : Bool :=
  startswith h "$argon2".data

/-- Outcome of the argon2 library call PasswordHasher.verify, modelled from
the library interface the source imports (the library itself is not part of
src/): it returns normally on a match, raises VerifyMismatchError on a
mismatch, and raises InvalidHashError when the encoded hash cannot be parsed
as an Argon2 hash. Whether a well-formed hash secretMatches a given password is
abstracted by an oracle function. -/
inductive ArgonOutcome
  | ok
  | mismatch
  | invalidHash
deriving DecidableEq

def hasherVerify (secretMatches : Str → Str → Bool) (hash_str password : Str) :
    ArgonOutcome :=
  if isEncodedArgonHash hash_str then
    if secretMatches hash_str password then .ok else .mismatch
  else .invalidHash

/-- Python exceptions that can escape the security layer. -/
inductive PyExn
  | verifyMismatch
  | invalidHashErr
deriving DecidableEq

/-- security.PasswordManager.verify_password: calls hasher.verify inside a
try block that catches only VerifyMismatchError (returning False); any other
exception, in particular InvalidHashError on a malformed encoded hash,
escapes to the caller. -/
def verify_password (secretMatches : Str → Str → Bool) (password hash_str : Str) :
    Except PyExn Bool :=
  match hasherVerify secretMatches hash_str password with
  | .ok => Except.ok true
  | .mismatch => Except.ok false
  | .invalidHash => Except.error PyExn.invalidHashErr

/-- models.APIKeyDocument: the stored JSON document for one API key. -/
structure APIKeyDocument where
  key_id : Str
  project_id : Str
  owner : Str
  metadata : Str
  secret_hash : Str
  disabled : Bool
  created_at : Int
  expires_at : Option Int
deriving DecidableEq

/-- models.APIKeyDocument.is_expired: false when expires_at is absent,
otherwise now > expires_at. The Python call to datetime.now() is modelled by
the explicit now argument. -/
def APIKeyDocument.is_expired (d : APIKeyDocument) (now : Int) : Bool :=
  match d.expires_at with
  | none => false
  | some e => decide (e < now)

/-- models.APIKeyDocument.is_valid: not disabled and not expired. -/
def APIKeyDocument.is_valid (d : APIKeyDocument) (now : Int) : Bool :=
  !d.disabled && !(d.is_expired now)

/-- The result field of an audit event. -/
inductive AuditResult
  | ok
  | denied
  | rate_limited
deriving DecidableEq

/-- models.AuditEvent for the stream audit:keylookup. -/
structure AuditEvent where
  ts : Int
  project_id : Str
  key_id : Str
  result : AuditResult
  client : Str
deriving DecidableEq

/-- The backing store state: JSON documents, per-project key-id sets, the
usage sidecar hash, rate-limit counters with their TTLs, and the audit
stream. All maps are keyed by the rendered store key strings. -/
structure Store where
  apikeys : Str → Option APIKeyDocument
  keyset : Str → List Str
  usage : Str → Nat
  last_used : Str → Option Int
  rate : Str → Nat
  rateTtl : Str → Option Nat
  audit : List AuditEvent

/-- Point update of a store map. -/
def upd {α : Type} (f : Str → α) (k : Str) (v : α) : Str → α :=
  fun x => if x = k then v else f x

/-- Evaluation context of one request: the abstract hash-match oracle, the
current time, and one flag per kind of store operation saying whether that
operation raises a store error during this request (matching the try/except
blocks of redis_client). -/
structure Ctx where
  secretMatches : Str → Str → Bool
  now : Int
  errGet : Bool
  errRate : Bool
  errAudit : Bool
  errUsage : Bool

/-- redis_client key naming helpers. -/
def apikey_key (project_id key_id : Str) : Str :=
  "apikey:".data ++ project_id ++ ":".data ++ key_id

def apiprojectkeys_key (project_id : Str) : Str :=
  "apiprojectkeys:".data ++ project_id

def apimeta_key (project_id key_id : Str) : Str :=
  "apimeta:".data ++ project_id ++ ":".data ++ key_id

def ratelimit_key (project_id key_id : Str) (minute : Int) : Str :=
  "ratelimit:key:".data ++ project_id ++ ":".data ++ key_id ++ ":".data
    ++ (toString minute).data

/-- redis_client.RedisKeyManager.get_api_key: reads the JSON document; a
store error is caught inside the function, logged, and turned into None,
indistinguishable from an absent document to the caller. -/
def get_api_key (ctx : Ctx) (st : Store) (project_id key_id : Str) :
    Option APIKeyDocument :=
  if ctx.errGet then none
  else st.apikeys (apikey_key project_id key_id)

/-- redis_client.RedisKeyManager.log_audit_event: appends to the stream
audit:keylookup; a store error is caught, logged and swallowed, leaving the
stream unchanged. -/
def log_audit_event (ctx : Ctx) (st : Store) (event : AuditEvent) : Store :=
  if ctx.errAudit then st
  else { st with audit := st.audit ++ [event] }

/-- The default of the limit_per_minute parameter of check_rate_limit. -/
def defaultRateLimit : Nat := 100

/-- redis_client.RedisKeyManager.check_rate_limit: INCR the per-key bucket of
the current minute and EXPIRE it to 120 seconds in one pipeline; allow the
request when the post-increment count is at most the limit. A store error is
caught and the request is allowed (fail open) with the store unchanged. -/
def check_rate_limit (ctx : Ctx) (st : Store) (project_id key_id : Str)
    (limit_per_minute : Nat) : Bool × Store :=
  if ctx.errRate then (true, st)
  else
    let current_minute := Int.fdiv ctx.now 60
    let rate_key := ratelimit_key project_id key_id current_minute
    let current_count := st.rate rate_key + 1
    (decide (current_count ≤ limit_per_minute),
      { st with
        rate := upd st.rate rate_key current_count,
        rateTtl := upd st.rateTtl rate_key (some 120) })

/-- redis_client.RedisKeyManager.update_key_usage: HINCRBY usage_count by one
and HSET last_used to the current time in one pipeline; a store error is
caught and swallowed, leaving the sidecar unchanged. -/
def update_key_usage (ctx : Ctx) (st : Store) (project_id key_id : Str) :
    Store :=
  if ctx.errUsage then st
  else
    let meta_key := apimeta_key project_id key_id
    { st with
      usage := upd st.usage meta_key (st.usage meta_key + 1),
      last_used := upd st.last_used meta_key (some ctx.now) }

/-- The audit event validate_api_key emits, with the producer tag of
models.AuditEvent. -/
def mkAuditEvent (ctx : Ctx) (pk : ParsedAPIKey) (result : AuditResult) :
    AuditEvent :=
  ⟨ctx.now, pk.project_id, pk.key_id, result, "keymanager".data⟩

/-- redis_client.RedisKeyManager.validate_api_key: parse, fetch, liveness,
secret verification, rate gate, then audit and usage update. A ValueError
from parsing and any exception escaping the later steps (in particular an
InvalidHashError from hasher.verify) are caught by the surrounding
try/except, which returns None without further effects. -/
def validate_api_key (ctx : Ctx) (st : Store) (api_key : Str) :
    Option APIKeyDocument × Store :=
  match ParsedAPIKey.parse api_key with
  | none => (none, st)
  | some pk =>
    match get_api_key ctx st pk.project_id pk.key_id with
    | none => (none, log_audit_event ctx st (mkAuditEvent ctx pk .denied))
    | some doc =>
      if doc.is_valid ctx.now = false then
        (none, log_audit_event ctx st (mkAuditEvent ctx pk .denied))
      else
        match verify_password ctx.secretMatches pk.secret doc.secret_hash with
        | Except.error _ => (none, st)
        | Except.ok false =>
          (none, log_audit_event ctx st (mkAuditEvent ctx pk .denied))
        | Except.ok true =>
          let gate := check_rate_limit ctx st pk.project_id pk.key_id
            defaultRateLimit
          if gate.1 = false then
            (none, log_audit_event ctx gate.2 (mkAuditEvent ctx pk .rate_limited))
          else
            let st2 := log_audit_event ctx gate.2 (mkAuditEvent ctx pk .ok)
            let st3 := update_key_usage ctx st2 pk.project_id pk.key_id
            (some doc, st3)

/-- models.ValidateKeyResponse: the success body of the validate endpoint. -/
structure ValidateKeyResponse where
  project_id : Str
  key_id : Str
  owner : Str
  metadata : Str
deriving DecidableEq

/-- The success body main.validate_key builds from the validated document. -/
def ValidateKeyResponse.ofDoc (d : APIKeyDocument) : ValidateKeyResponse :=
  ⟨d.project_id, d.key_id, d.owner, d.metadata⟩

/-- models.ErrorDetail inside the error envelope. -/
structure ErrorDetail where
  code : Str
  message : Str
deriving DecidableEq

/-- Result of the validate endpoint: a success body with HTTP 200, or an
error envelope with its HTTP status code. -/
inductive VKResult
  | success (body : ValidateKeyResponse)
  | failure (body : ErrorDetail) (statusCode : Nat)
deriving DecidableEq

/-- The invalid_key error response main.validate_key returns. -/
def invalid_key_response : VKResult :=
  VKResult.failure ⟨"invalid_key".data, "Invalid or expired API key".data⟩ 401

/-- main.validate_key endpoint: run the validation workflow; None becomes the
invalid_key envelope with HTTP 401, a document becomes the success body. The
internal_error branch of the endpoint is reachable only from an exception
escaping validate_api_key, which catches every exception itself. -/
def validate_key (ctx : Ctx) (st : Store) (api_key : Str) : VKResult × Store :=
  match validate_api_key ctx st api_key with
  | (none, st1) => (invalid_key_response, st1)
  | (some doc, st1) => (VKResult.success (ValidateKeyResponse.ofDoc doc), st1)

/-- models.KeyMetadata: the per-key view the list endpoint returns. -/
structure KeyMetadata where
  key_id : Str
  owner : Str
  metadata : Str
  created_at : Int
  disabled : Bool
  expires_at : Option Int
deriving DecidableEq

/-- The projection main.list_keys applies to each stored document. -/
def KeyMetadata.ofDoc (d : APIKeyDocument) : KeyMetadata :=
  ⟨d.key_id, d.owner, d.metadata, d.created_at, d.disabled, d.expires_at⟩

/-- models.ListKeysResponse. -/
structure ListKeysResponse where
  items : List KeyMetadata
  next : Option Str
deriving DecidableEq

/-- redis_client.RedisKeyManager.list_project_keys: read the project's key-id
set, slice it with the Python slice off to off plus lim, and fetch each
document, dropping the ones whose fetch returns None. -/
def list_project_keys (ctx : Ctx) (st : Store) (project_id : Str)
    (offset limit : Nat) : List APIKeyDocument :=
  let key_ids := st.keyset (apiprojectkeys_key project_id)
  let paginated := (key_ids.drop offset).take limit
  paginated.filterMap (fun key_id => get_api_key ctx st project_id key_id)

/-- main.list_keys endpoint: project the documents to KeyMetadata; emit the
cursor str(offset + limit) when the number of items equals the limit, null
otherwise. -/
def list_keys (ctx : Ctx) (st : Store) (project_id : Str)
    (offset limit : Nat) : ListKeysResponse :=
  let docs := list_project_keys ctx st project_id offset limit
  let items := docs.map KeyMetadata.ofDoc
  let next_token :=
    if items.length = limit then some (toString (offset + limit)).data
    else none
  ⟨items, next_token⟩

/-- main.mint_key, restricted to the wire form it returns: the generated
key_id and secret and the requested project_id are composed into a
ParsedAPIKey and formatted. -/
def mint_wire (project_id key_id secret : Str) : Str :=
  ParsedAPIKey.format_key ⟨project_id, key_id, secret⟩

/-- A rendered JSON value, for stating which field names a response body
carries. -/
inductive JVal
  | s (v : Str)
  | n (v : Int)
  | b (v : Bool)
  | null

/-- Serialization of models.ValidateKeyResponse: its four declared fields. -/
def ValidateKeyResponse.model_dump (r : ValidateKeyResponse) :
    List (Str × JVal) :=
  [("project_id".data, JVal.s r.project_id),
   ("key_id".data, JVal.s r.key_id),
   ("owner".data, JVal.s r.owner),
   ("metadata".data, JVal.s r.metadata)]

/-- Serialization of models.KeyMetadata: its six declared fields. -/
def KeyMetadata.model_dump (m : KeyMetadata) : List (Str × JVal) :=
  [("key_id".data, JVal.s m.key_id),
   ("owner".data, JVal.s m.owner),
   ("metadata".data, JVal.s m.metadata),
   ("created_at".data, JVal.n m.created_at),
   ("disabled".data, JVal.b m.disabled),
   ("expires_at".data, match m.expires_at with
     | some e => JVal.n e
     | none => JVal.null)]

/-- Serialization of models.ErrorDetail. -/
def ErrorDetail.model_dump (e : ErrorDetail) : List (Str × JVal) :=
  [("code".data, JVal.s e.code), ("message".data, JVal.s e.message)]

/-- All field names of the error envelope of main.create_error_response:
the outer error key plus the detail's keys. -/
def error_envelope_names (e : ErrorDetail) : List Str :=
  "error".data :: (e.model_dump).map Prod.fst

/-- All field names appearing in a validate endpoint response body. -/
def validate_response_names : VKResult → List Str
  | VKResult.success b => (b.model_dump).map Prod.fst
  | VKResult.failure e _ => error_envelope_names e

/-- All field names appearing in a list endpoint response body: the two
top-level keys plus every item's keys. -/
def list_response_names (r : ListKeysResponse) : List Str :=
  "items".data :: "next".data ::
    r.items.flatMap (fun m => (m.model_dump).map Prod.fst)

/-- The stored document with its secret_hash field replaced. -/
def setSecretHash (d : APIKeyDocument) (h : Str) : APIKeyDocument :=
  { d with secret_hash := h }

/- Concrete example data used by counterexamples and witnesses. -/

/-- A stored, live document whose secret hash is a well-formed encoded
Argon2 hash. -/
def docEx : APIKeyDocument :=
  ⟨"k1".data, "p1".data, "alice".data, "srv-a".data,
    "$argon2id$v=19$m=65536,t=3,p=1$c2FsdA$aGFzaA".data, false, 100, none⟩

/-- A disabled variant of the example document. -/
def docDisabled : APIKeyDocument := { docEx with disabled := true }

/-- A store holding only the example document, under its rendered key. -/
def stEx : Store :=
  ⟨upd (fun _ => none) (apikey_key "p1".data "k1".data) (some docEx),
    fun _ => [], fun _ => 0, fun _ => none, fun _ => 0, fun _ => none, []⟩

/-- A store holding only the disabled example document. -/
def stDisabled : Store :=
  { stEx with
    apikeys := upd (fun _ => none) (apikey_key "p1".data "k1".data)
      (some docDisabled) }

/-- The empty store. -/
def stEmpty : Store :=
  ⟨fun _ => none, fun _ => [], fun _ => 0, fun _ => none, fun _ => 0,
    fun _ => none, []⟩

/-- A context whose hash oracle accepts everything and in which no store
operation errors. -/
def ctxOk : Ctx := ⟨fun _ _ => true, 1000, false, false, false, false⟩

/-- The context ctxOk with a failing document fetch. -/
def ctxGetErr : Ctx := { ctxOk with errGet := true }

/-- The wire form of the example document's credential. -/
def keyEx : Str := "sk-proj.p1.k1.s3cret".data

/-- The parse result of keyEx. -/
def pkEx : ParsedAPIKey := ⟨"p1".data, "k1".data, "s3cret".data⟩

/-- A project id containing a dot, as mint accepts. -/
def pidDotted : Str := "a.b".data

/-- A well-shaped generated key id. -/
def kidEx : Str := "k_AAAAAAA".data

/-- A well-shaped generated 32-character secret. -/
def secEx : Str := List.replicate 32 'A'

/-- A store for the pagination counterexample: project p1 has exactly three
key ids, each with a stored document. -/
def stThree : Store :=
  { stEmpty with
    keyset := upd (fun _ => []) (apiprojectkeys_key "p1".data)
      ["a".data, "b".data, "c".data],
    apikeys := fun k =>
      if k = apikey_key "p1".data "a".data then
        some { docEx with key_id := "a".data }
      else if k = apikey_key "p1".data "b".data then
        some { docEx with key_id := "b".data }
      else if k = apikey_key "p1".data "c".data then
        some { docEx with key_id := "c".data }
      else none }

theorem startswith_iff (s pre : Str) :
    startswith s pre = true ↔ ∃ t, s = pre ++ t := by
  induction pre generalizing s with
  | nil => simp [startswith]
  | cons p ps ih =>
    cases s with
    | nil => simp [startswith]
    | cons c cs =>
      simp only [startswith, Bool.and_eq_true, decide_eq_true_eq, ih,
        List.cons_append, List.cons.injEq]
      constructor
      · rintro ⟨rfl, t, rfl⟩; exact ⟨t, rfl, rfl⟩
      · rintro ⟨t, rfl, rfl⟩; exact ⟨rfl, t, rfl⟩

theorem splitFirst_eq_some {sep : Char} {s a b : Str}
    (h : splitFirst sep s = some (a, b)) : s = a ++ sep :: b ∧ sep ∉ a := by
  induction s generalizing a with
  | nil => simp [splitFirst] at h
  | cons c cs ih =>
    by_cases hc : c = sep
    · simp [splitFirst, hc] at h
      rcases h with ⟨rfl, rfl⟩
      simp [hc]
    · simp only [splitFirst, if_neg hc] at h
      cases hsf : splitFirst sep cs with
      | none => rw [hsf] at h; simp at h
      | some ab =>
        rcases ab with ⟨a', b'⟩
        rw [hsf] at h
        simp only [Option.some.injEq, Prod.mk.injEq] at h
        rcases h with ⟨rfl, rfl⟩
        rcases ih hsf with ⟨rfl, hmem⟩
        refine ⟨rfl, ?_⟩
        simp only [List.mem_cons, not_or]
        exact ⟨fun hh => hc hh.symm, hmem⟩

theorem splitFirst_eq_none {sep : Char} {s : Str}
    (h : splitFirst sep s = none) : sep ∉ s := by
  induction s with
  | nil => simp
  | cons c cs ih =>
    by_cases hc : c = sep
    · simp [splitFirst, hc] at h
    · simp only [splitFirst, if_neg hc] at h
      cases hsf : splitFirst sep cs with
      | none =>
        simp only [List.mem_cons, not_or]
        exact ⟨fun hh => hc hh.symm, ih hsf⟩
      | some ab => rw [hsf] at h; rcases ab with ⟨a, b⟩; simp at h

theorem splitFirst_append {sep : Char} {a : Str} (b : Str) (ha : sep ∉ a) :
    splitFirst sep (a ++ sep :: b) = some (a, b) := by
  induction a with
  | nil => simp [splitFirst]
  | cons c cs ih =>
    simp only [List.mem_cons, not_or] at ha
    have hc : ¬ c = sep := fun h => ha.1 h.symm
    simp only [List.cons_append, splitFirst, if_neg hc, List.append_eq, ih ha.2]

theorem pysplit_ne_nil (sep : Char) (n : Nat) (s : Str) :
    pysplit sep n s ≠ [] := by
  cases n with
  | zero => simp [pysplit]
  | succ m =>
    simp only [pysplit]
    cases hsf : splitFirst sep s with
    | none => simp
    | some ab => rcases ab with ⟨a, b⟩; simp

theorem joinDots_cons {l : List Str} (a : Str) (h : l ≠ []) :
    joinDots (a :: l) = a ++ '.' :: joinDots l := by
  cases l with
  | nil => exact absurd rfl h
  | cons x xs => rfl

theorem joinDots_pysplit (n : Nat) (s : Str) :
    joinDots (pysplit '.' n s) = s := by
  induction n generalizing s with
  | zero => rfl
  | succ m ih =>
    simp only [pysplit]
    cases hsf : splitFirst '.' s with
    | none => rfl
    | some ab =>
      rcases ab with ⟨a, b⟩
      rw [joinDots_cons a (pysplit_ne_nil '.' m b), ih b,
        (splitFirst_eq_some hsf).1]

theorem pysplit_length (sep : Char) (n : Nat) (s : Str) :
    (pysplit sep n s).length = min (n + 1) (s.count sep + 1) := by
  induction n generalizing s with
  | zero =>
    simp only [pysplit, List.length_singleton]
    exact (Nat.min_eq_left (Nat.succ_le_succ (Nat.zero_le _))).symm
  | succ m ih =>
    simp only [pysplit]
    cases hsf : splitFirst sep s with
    | none =>
      have hz : s.count sep = 0 := List.count_eq_zero.mpr (splitFirst_eq_none hsf)
      simp [hz, Nat.min_eq_right (Nat.succ_le_succ (Nat.zero_le _))]
    | some ab =>
      rcases ab with ⟨a, b⟩
      rcases splitFirst_eq_some hsf with ⟨rfl, hmem⟩
      have hca : a.count sep = 0 := List.count_eq_zero.mpr hmem
      simp only [List.length_cons, ih, List.count_append, List.count_cons_self,
        hca, Nat.zero_add]
      omega

theorem pysplit_header (r : Str) :
    pysplit '.' 3 (skprojHeader ++ r) = "sk-proj".data :: pysplit '.' 2 r := by
  have h : skprojHeader ++ r = "sk-proj".data ++ '.' :: r := rfl
  have hs := @splitFirst_append '.' "sk-proj".data r (by decide)
  rw [h]
  simp only [pysplit, hs]

theorem format_key_parse {s : Str} {p : ParsedAPIKey}
    (h : ParsedAPIKey.parse s = some p) : p.format_key = s := by
  unfold ParsedAPIKey.parse at h
  cases hb : startswith s skprojHeader with
  | false => rw [hb] at h; simp at h
  | true =>
    rw [hb] at h
    simp only [Bool.true_eq_false, if_false] at h
    obtain ⟨r, rfl⟩ := (startswith_iff s skprojHeader).mp hb
    rw [pysplit_header] at h
    have hj := joinDots_pysplit 2 r
    cases hps : pysplit '.' 2 r with
    | nil => exact absurd hps (pysplit_ne_nil '.' 2 r)
    | cons a t =>
      cases t with
      | nil => rw [hps] at h; simp at h
      | cons b t2 =>
        cases t2 with
        | nil => rw [hps] at h; simp at h
        | cons c t3 =>
          cases t3 with
          | cons d t4 => rw [hps] at h; simp at h
          | nil =>
            rw [hps] at h
            simp only [Option.some.injEq] at h
            subst h
            rw [hps] at hj
            simp only [joinDots] at hj
            simp only [ParsedAPIKey.format_key]
            rw [← hj]
            simp [List.append_assoc]

theorem parse_format {pid kid sec : Str} (hp : '.' ∉ pid) (hk : '.' ∉ kid) :
    ParsedAPIKey.parse (ParsedAPIKey.format_key ⟨pid, kid, sec⟩)
      = some ⟨pid, kid, sec⟩ := by
  have hform : ParsedAPIKey.format_key ⟨pid, kid, sec⟩
      = skprojHeader ++ (pid ++ '.' :: (kid ++ '.' :: sec)) := by
    simp [ParsedAPIKey.format_key, List.append_assoc]
  have hsw : startswith (skprojHeader ++ (pid ++ '.' :: (kid ++ '.' :: sec)))
      skprojHeader = true :=
    (startswith_iff _ _).mpr ⟨_, rfl⟩
  rw [hform]
  unfold ParsedAPIKey.parse
  rw [hsw]
  simp only [Bool.true_eq_false, if_false, pysplit_header]
  simp only [pysplit, splitFirst_append _ hp, splitFirst_append _ hk]

theorem isGeneratedKeyId_no_dot {kid : Str} (h : isGeneratedKeyId kid = true) :
    '.' ∉ kid := by
  simp only [isGeneratedKeyId, Bool.and_eq_true, beq_iff_eq,
    List.all_eq_true] at h
  obtain ⟨⟨hsw, _⟩, hall⟩ := h
  obtain ⟨r, rfl⟩ := (startswith_iff _ _).mp hsw
  intro hmem
  have hr : ("k_".data ++ r).drop 2 = r := rfl
  rw [hr] at hall
  rcases List.mem_append.mp hmem with hm | hm
  · revert hm; decide
  · have := hall '.' hm
    revert this; decide

theorem parse_of_two_dots {r : Str} (h : 2 ≤ r.count '.') :
    (ParsedAPIKey.parse (skprojHeader ++ r)).isSome = true := by
  have hsw : startswith (skprojHeader ++ r) skprojHeader = true :=
    (startswith_iff _ _).mpr ⟨_, rfl⟩
  have hlen : (pysplit '.' 2 r).length = 3 := by
    rw [pysplit_length]
    omega
  obtain ⟨a, b, c, habc⟩ := List.length_eq_three.mp hlen
  unfold ParsedAPIKey.parse
  rw [hsw]
  simp only [Bool.true_eq_false, if_false, pysplit_header, habc]
  rfl

/-- Claim C4 (corrected): the mint round-trip fails as universally stated,
because mint accepts a project id containing a dot; at such an input the wire
form parses to a different triple. The generated key id and secret are
well-shaped here, so the failure is forced by the project id alone. -/
theorem C4_counterexample :
    isGeneratedKeyId kidEx = true
    ∧ isGeneratedSecret 32 secEx = true
    ∧ ParsedAPIKey.parse (mint_wire pidDotted kidEx secEx)
        ≠ some ⟨pidDotted, kidEx, secEx⟩ := by
  refine ⟨by decide, by decide, by decide⟩

/-- Claim C4 (amended): the codec round-trips, format after parse is the
identity on every accepted string; and every mint whose project id contains
no dot returns a wire form that parses back to exactly the triple mint
composed (the generated key id and secret never contain a dot). -/
theorem C4_codec_roundtrip :
    ∀ (s : Str) (p : ParsedAPIKey) (pid kid secret : Str),
      (ParsedAPIKey.parse s = some p → p.format_key = s)
      ∧ ('.' ∉ pid → isGeneratedKeyId kid = true →
          isGeneratedSecret 32 secret = true →
          ParsedAPIKey.parse (mint_wire pid kid secret)
            = some ⟨pid, kid, secret⟩) := by
  intro s p pid kid secret
  refine ⟨fun h => format_key_parse h, fun hp hk _ => ?_⟩
  exact parse_format hp (isGeneratedKeyId_no_dot hk)

theorem C4_witness :
    (ParsedAPIKey.format_key pkEx = keyEx)
    ∧ ParsedAPIKey.parse (mint_wire "p1".data kidEx secEx)
        = some ⟨"p1".data, kidEx, secEx⟩ :=
  ⟨(C4_codec_roundtrip keyEx pkEx "p1".data kidEx secEx).1 (by decide),
   (C4_codec_roundtrip keyEx pkEx "p1".data kidEx secEx).2 (by decide)
     (by decide) (by decide)⟩

/-- Claim C10: the parser imposes no non-emptiness on components: any string
starting with the sk-proj. header whose remainder has at least two further
dots parses; the string of the header followed by two dots parses to three
empty components; and the document fetch for those components reads the store
key apikey:: (two adjacent colons). -/
theorem C10_empty_components :
    ∀ (r : Str) (ctx : Ctx) (st : Store),
      (2 ≤ r.count '.' →
        (ParsedAPIKey.parse (skprojHeader ++ r)).isSome = true)
      ∧ ParsedAPIKey.parse "sk-proj...".data = some ⟨[], [], []⟩
      ∧ apikey_key [] [] = "apikey::".data
      ∧ (ctx.errGet = false →
          get_api_key ctx st [] [] = st.apikeys "apikey::".data) := by
  intro r ctx st
  refine ⟨fun h => parse_of_two_dots h, by decide, by decide, fun herr => ?_⟩
  unfold get_api_key
  rw [herr]
  simp only [Bool.false_eq_true, if_false]
  rfl

theorem C10_witness :
    (ParsedAPIKey.parse (skprojHeader ++ "p.k.s".data)).isSome = true
    ∧ get_api_key ctxOk stEmpty [] [] = stEmpty.apikeys "apikey::".data :=
  ⟨(C10_empty_components "p.k.s".data ctxOk stEmpty).1 (by decide),
   (C10_empty_components "p.k.s".data ctxOk stEmpty).2.2.2 rfl⟩

/-- Claim C8 (code bug): verify_password propagates the argon2
InvalidHashError on a malformed encoded hash, because its try block catches
only VerifyMismatchError; the repository's own test asserts False instead.
On a well-formed hash it does return a boolean: false on mismatch, true on
match. The failing input is the one of the repository's test. -/
theorem C8_malformed_hash_raises :
    verify_password (fun _ _ => false) "test_password_123".data
        "invalid_hash_string".data = Except.error PyExn.invalidHashErr
    ∧ verify_password (fun _ _ => false) "pw".data docEx.secret_hash
        = Except.ok false
    ∧ verify_password (fun _ _ => true) "pw".data docEx.secret_hash
        = Except.ok true :=
  ⟨rfl, rfl, rfl⟩

/-- Claim C5: check_rate_limit increments the per-key per-minute bucket and
gives it a 120 second expiry; it allows the request exactly when the
post-increment count is at most the limit, whose default is 100 per minute;
and on a store error it allows the request with the store unchanged. -/
theorem C5_rate_limit :
    ∀ (ctx : Ctx) (st : Store) (pid kid : Str) (lim : Nat),
      defaultRateLimit = 100
      ∧ (ctx.errRate = false →
          ((check_rate_limit ctx st pid kid lim).2.rate
              (ratelimit_key pid kid (Int.fdiv ctx.now 60))
            = st.rate (ratelimit_key pid kid (Int.fdiv ctx.now 60)) + 1)
          ∧ (check_rate_limit ctx st pid kid lim).2.rateTtl
              (ratelimit_key pid kid (Int.fdiv ctx.now 60)) = some 120
          ∧ ((check_rate_limit ctx st pid kid lim).1 = true
              ↔ st.rate (ratelimit_key pid kid (Int.fdiv ctx.now 60)) + 1 ≤ lim))
      ∧ (ctx.errRate = true → check_rate_limit ctx st pid kid lim = (true, st)) := by
  intro ctx st pid kid lim
  refine ⟨rfl, fun herr => ?_, fun herr => ?_⟩
  · simp [check_rate_limit, herr, upd]
  · simp [check_rate_limit, herr]

theorem C5_witness :
    (check_rate_limit ctxOk stEmpty "p1".data "k1".data defaultRateLimit).2.rate
        (ratelimit_key "p1".data "k1".data (Int.fdiv ctxOk.now 60))
      = stEmpty.rate
          (ratelimit_key "p1".data "k1".data (Int.fdiv ctxOk.now 60)) + 1 :=
  ((C5_rate_limit ctxOk stEmpty "p1".data "k1".data defaultRateLimit).2.1 rfl).1

/-- Claim C2: the secret_hash field never appears in any response of the
validate and list endpoints, success or error: the rendered field names of
every such body exclude secret_hash, and the projections that build the
bodies from a stored document do not depend on its secret_hash field. -/
theorem C2_secret_hash_never_returned :
    ∀ (ctx : Ctx) (st : Store) (api_key pid : Str) (off lim : Nat)
      (d : APIKeyDocument) (h : Str),
      "secret_hash".data ∉ validate_response_names (validate_key ctx st api_key).1
      ∧ "secret_hash".data ∉ list_response_names (list_keys ctx st pid off lim)
      ∧ KeyMetadata.ofDoc (setSecretHash d h) = KeyMetadata.ofDoc d
      ∧ ValidateKeyResponse.ofDoc (setSecretHash d h)
          = ValidateKeyResponse.ofDoc d := by
  intro ctx st api_key pid off lim d h
  refine ⟨?_, ?_, rfl, rfl⟩
  · cases hr : (validate_key ctx st api_key).1 with
    | success b =>
      simp only [validate_response_names, ValidateKeyResponse.model_dump,
        List.map_cons, List.map_nil]
      decide
    | failure e sc =>
      simp only [validate_response_names, error_envelope_names,
        ErrorDetail.model_dump, List.map_cons, List.map_nil]
      decide
  · intro hmem
    simp only [list_response_names, List.mem_cons, List.mem_flatMap,
      KeyMetadata.model_dump, List.map_cons, List.map_nil] at hmem
    rcases hmem with h1 | h1 | ⟨m, _, h1⟩
    · exact absurd h1 (by decide)
    · exact absurd h1 (by decide)
    · rcases h1 with h2 | h2 | h2 | h2 | h2 | h2 <;> exact absurd h2 (by decide)

theorem validate_reject_of_invalid {ctx : Ctx} {st : Store} {key : Str}
    {pk : ParsedAPIKey} {d : APIKeyDocument}
    (hparse : ParsedAPIKey.parse key = some pk)
    (hget : get_api_key ctx st pk.project_id pk.key_id = some d)
    (hval : d.is_valid ctx.now = false) :
    validate_api_key ctx st key
      = (none, log_audit_event ctx st (mkAuditEvent ctx pk AuditResult.denied)) := by
  unfold validate_api_key
  rw [hparse]
  dsimp only
  rw [hget]
  dsimp only
  rw [hval]
  simp

/-- Claim C1: a key is expired exactly when expires_at is present and now is
past it, and valid exactly when neither disabled nor expired; and a validate
whose stored document is disabled or expired answers the invalid_key error,
whatever the presented secret and whatever the hash oracle says. -/
theorem C1_liveness_and_reject :
    ∀ (d : APIKeyDocument) (now : Int) (ctx : Ctx) (st : Store)
      (key : Str) (pk : ParsedAPIKey),
      (d.is_expired now = true ↔ ∃ e, d.expires_at = some e ∧ e < now)
      ∧ (d.is_valid now = true
          ↔ d.disabled = false ∧ d.is_expired now = false)
      ∧ (ParsedAPIKey.parse key = some pk →
          st.apikeys (apikey_key pk.project_id pk.key_id) = some d →
          ctx.errGet = false →
          (d.disabled = true ∨ d.is_expired ctx.now = true) →
          (validate_key ctx st key).1 = invalid_key_response) := by
  intro d now ctx st key pk
  refine ⟨?_, ?_, ?_⟩
  · unfold APIKeyDocument.is_expired
    cases hd : d.expires_at with
    | none => simp
    | some e => simp
  · unfold APIKeyDocument.is_valid
    cases hdis : d.disabled <;> cases hexp : d.is_expired now <;> simp_all
  · intro hparse hget herr hbad
    have hget' : get_api_key ctx st pk.project_id pk.key_id = some d := by
      unfold get_api_key
      rw [herr]
      simpa using hget
    have hval : d.is_valid ctx.now = false := by
      unfold APIKeyDocument.is_valid
      rcases hbad with hb | hb <;> simp [hb]
    unfold validate_key
    rw [validate_reject_of_invalid hparse hget' hval]

theorem C1_witness :
    (validate_key ctxOk stDisabled keyEx).1 = invalid_key_response :=
  (C1_liveness_and_reject docDisabled ctxOk.now ctxOk stDisabled keyEx
    pkEx).2.2 (by decide) (by decide) rfl (Or.inl rfl)

theorem usage_log_audit (ctx : Ctx) (st : Store) (ev : AuditEvent) :
    (log_audit_event ctx st ev).usage = st.usage := by
  unfold log_audit_event
  split <;> rfl

theorem usage_rate (ctx : Ctx) (st : Store) (pid kid : Str) (lim : Nat) :
    (check_rate_limit ctx st pid kid lim).2.usage = st.usage := by
  unfold check_rate_limit
  split <;> rfl

theorem audit_rate (ctx : Ctx) (st : Store) (pid kid : Str) (lim : Nat) :
    (check_rate_limit ctx st pid kid lim).2.audit = st.audit := by
  unfold check_rate_limit
  split <;> rfl

theorem audit_usage (ctx : Ctx) (st : Store) (pid kid : Str) :
    (update_key_usage ctx st pid kid).audit = st.audit := by
  unfold update_key_usage
  split <;> rfl

theorem audit_log (ctx : Ctx) (st : Store) (ev : AuditEvent)
    (herr : ctx.errAudit = false) :
    (log_audit_event ctx st ev).audit = st.audit ++ [ev] := by
  simp [log_audit_event, herr]

theorem usage_update_key (ctx : Ctx) (st : Store) (pid kid : Str)
    (herr : ctx.errUsage = false) :
    (update_key_usage ctx st pid kid).usage (apimeta_key pid kid)
      = st.usage (apimeta_key pid kid) + 1 := by
  simp [update_key_usage, herr, upd]

theorem usage_update_key_other (ctx : Ctx) (st : Store) (pid kid k : Str)
    (herr : ctx.errUsage = false) (hk : k ≠ apimeta_key pid kid) :
    (update_key_usage ctx st pid kid).usage k = st.usage k := by
  simp [update_key_usage, herr, upd, hk]

/-- Claim C3 (counterexample): a store whose live document exists but whose
fetch raises an error during validate yields the invalid_key envelope with
HTTP 401, not internal_error with HTTP 500, contrary to the claim. -/
theorem C3_counterexample :
    (validate_key ctxGetErr stEx keyEx).1 = invalid_key_response
    ∧ (validate_key ctxGetErr stEx keyEx).1
        ≠ VKResult.failure
            ⟨"internal_error".data, "Internal server error".data⟩ 500 := by
  refine ⟨by decide, by decide⟩

/-- Claim C3 (amended): when the store document fetch fails during validate,
get_api_key swallows the error and returns None, so validate treats the key
as absent, appends a denied audit event, and the endpoint surfaces the
invalid_key error, not internal_error. -/
theorem C3_fetch_error_surfaces_invalid_key :
    ∀ (ctx : Ctx) (st : Store) (key : Str) (pk : ParsedAPIKey),
      ctx.errGet = true → ParsedAPIKey.parse key = some pk →
      (validate_key ctx st key).1 = invalid_key_response
      ∧ (ctx.errAudit = false →
          (validate_key ctx st key).2.audit
            = st.audit ++ [mkAuditEvent ctx pk AuditResult.denied]) := by
  intro ctx st key pk herr hparse
  have hget : get_api_key ctx st pk.project_id pk.key_id = none := by
    simp [get_api_key, herr]
  have hv : validate_api_key ctx st key
      = (none, log_audit_event ctx st (mkAuditEvent ctx pk AuditResult.denied)) := by
    unfold validate_api_key
    rw [hparse]
    dsimp only
    rw [hget]
  constructor
  · unfold validate_key
    rw [hv]
  · intro haud
    unfold validate_key
    rw [hv]
    dsimp only
    exact audit_log ctx st _ haud

theorem C3_witness :
    (validate_key ctxGetErr stEmpty keyEx).1 = invalid_key_response
    ∧ (validate_key ctxGetErr stEmpty keyEx).2.audit
        = stEmpty.audit ++ [mkAuditEvent ctxGetErr pkEx AuditResult.denied] :=
  ⟨(C3_fetch_error_surfaces_invalid_key ctxGetErr stEmpty keyEx pkEx rfl
      (by decide)).1,
   (C3_fetch_error_surfaces_invalid_key ctxGetErr stEmpty keyEx pkEx rfl
      (by decide)).2 rfl⟩

/-- Claim C6: a successful validate advances the usage_count of exactly the
validated key by one (provided the best-effort usage write itself does not
error, which the source swallows); every validate that returns a rejection
leaves every usage_count unchanged. -/
theorem C6_usage_count :
    ∀ (ctx : Ctx) (st : Store) (key : Str) (pk : ParsedAPIKey),
      ParsedAPIKey.parse key = some pk →
      ((validate_api_key ctx st key).1.isSome = true → ctx.errUsage = false →
        (validate_api_key ctx st key).2.usage
            (apimeta_key pk.project_id pk.key_id)
          = st.usage (apimeta_key pk.project_id pk.key_id) + 1
        ∧ ∀ k, k ≠ apimeta_key pk.project_id pk.key_id →
            (validate_api_key ctx st key).2.usage k = st.usage k)
      ∧ ((validate_api_key ctx st key).1 = none →
          ∀ k, (validate_api_key ctx st key).2.usage k = st.usage k) := by
  intro ctx st key pk hparse
  unfold validate_api_key
  rw [hparse]
  dsimp only
  cases hget : get_api_key ctx st pk.project_id pk.key_id with
  | none =>
    dsimp only
    exact ⟨fun hs => by simp at hs, fun _ k => by rw [usage_log_audit]⟩
  | some doc =>
    dsimp only
    by_cases hval : doc.is_valid ctx.now = false
    · rw [if_pos hval]
      exact ⟨fun hs => by simp at hs, fun _ k => by rw [usage_log_audit]⟩
    · rw [if_neg hval]
      cases hvp : verify_password ctx.secretMatches pk.secret doc.secret_hash with
      | error e =>
        exact ⟨fun hs => by simp at hs, fun _ k => rfl⟩
      | ok b =>
        cases b with
        | false =>
          exact ⟨fun hs => by simp at hs, fun _ k => by rw [usage_log_audit]⟩
        | true =>
          dsimp only
          by_cases hgate :
              (check_rate_limit ctx st pk.project_id pk.key_id
                defaultRateLimit).1 = false
          · rw [if_pos hgate]
            refine ⟨fun hs => by simp at hs, fun _ k => ?_⟩
            rw [usage_log_audit, usage_rate]
          · rw [if_neg hgate]
            refine ⟨fun _ herrU => ⟨?_, fun k hk => ?_⟩,
              fun hn => by simp at hn⟩
            · rw [usage_update_key _ _ _ _ herrU, usage_log_audit, usage_rate]
            · rw [usage_update_key_other _ _ _ _ _ herrU hk, usage_log_audit,
                usage_rate]

theorem C6_witness :
    (validate_api_key ctxOk stEx keyEx).2.usage
        (apimeta_key pkEx.project_id pkEx.key_id)
      = stEx.usage (apimeta_key pkEx.project_id pkEx.key_id) + 1 :=
  ((C6_usage_count ctxOk stEx keyEx pkEx (by decide)).1 (by decide) rfl).1

/-- Claim C7: provided the best-effort stream append itself does not error
and every stored secret hash is a well-formed encoded Argon2 hash (as every
hash written by mint is), a validation attempt whose credential parses
appends exactly one audit event, carrying the parsed project and key ids,
with the result matching the outcome: ok exactly on success, and on each
rejection the result names the true cause, denied for an absent document,
a disabled or expired document, or a wrong secret, and rate_limited exactly
for a rejection at the rate gate; a malformed wire form appends nothing. -/
theorem C7_audit_exactly_one :
    ∀ (ctx : Ctx) (st : Store) (key : Str),
      ctx.errAudit = false →
      (∀ k d, st.apikeys k = some d → isEncodedArgonHash d.secret_hash = true) →
      (∀ pk, ParsedAPIKey.parse key = some pk →
        ((validate_api_key ctx st key).1.isSome = true →
          (validate_api_key ctx st key).2.audit
            = st.audit ++ [mkAuditEvent ctx pk AuditResult.ok])
        ∧ ((validate_api_key ctx st key).1 = none →
          (validate_api_key ctx st key).2.audit
              = st.audit ++ [mkAuditEvent ctx pk AuditResult.denied]
          ∨ (validate_api_key ctx st key).2.audit
              = st.audit ++ [mkAuditEvent ctx pk AuditResult.rate_limited])
        ∧ (get_api_key ctx st pk.project_id pk.key_id = none →
          (validate_api_key ctx st key).2.audit
            = st.audit ++ [mkAuditEvent ctx pk AuditResult.denied])
        ∧ (∀ doc, get_api_key ctx st pk.project_id pk.key_id = some doc →
            doc.is_valid ctx.now = false →
            (validate_api_key ctx st key).2.audit
              = st.audit ++ [mkAuditEvent ctx pk AuditResult.denied])
        ∧ (∀ doc, get_api_key ctx st pk.project_id pk.key_id = some doc →
            doc.is_valid ctx.now = true →
            verify_password ctx.secretMatches pk.secret doc.secret_hash
              = Except.ok false →
            (validate_api_key ctx st key).2.audit
              = st.audit ++ [mkAuditEvent ctx pk AuditResult.denied])
        ∧ (∀ doc, get_api_key ctx st pk.project_id pk.key_id = some doc →
            doc.is_valid ctx.now = true →
            verify_password ctx.secretMatches pk.secret doc.secret_hash
              = Except.ok true →
            (check_rate_limit ctx st pk.project_id pk.key_id
              defaultRateLimit).1 = false →
            (validate_api_key ctx st key).2.audit
              = st.audit ++ [mkAuditEvent ctx pk AuditResult.rate_limited]))
      ∧ (ParsedAPIKey.parse key = none →
          (validate_api_key ctx st key).2.audit = st.audit) := by
  intro ctx st key haud hwf
  constructor
  · intro pk hparse
    unfold validate_api_key
    rw [hparse]
    dsimp only
    cases hget : get_api_key ctx st pk.project_id pk.key_id with
    | none =>
      dsimp only
      exact ⟨fun hs => by simp at hs,
        fun _ => Or.inl (audit_log ctx st _ haud),
        fun _ => audit_log ctx st _ haud,
        fun doc hd => by simp at hd,
        fun doc hd => by simp at hd,
        fun doc hd => by simp at hd⟩
    | some doc =>
      have hdoc : isEncodedArgonHash doc.secret_hash = true := by
        unfold get_api_key at hget
        cases hcg : ctx.errGet with
        | true => rw [hcg] at hget; simp at hget
        | false =>
          rw [hcg] at hget
          simp only [Bool.false_eq_true, if_false] at hget
          exact hwf _ _ hget
      dsimp only
      by_cases hval : doc.is_valid ctx.now = false
      · rw [if_pos hval]
        exact ⟨fun hs => by simp at hs,
          fun _ => Or.inl (audit_log ctx st _ haud),
          fun hd => by simp at hd,
          fun doc' hd _ => by cases hd; exact audit_log ctx st _ haud,
          fun doc' hd hv _ => by cases hd; rw [hval] at hv; simp at hv,
          fun doc' hd hv _ _ => by cases hd; rw [hval] at hv; simp at hv⟩
      · rw [if_neg hval]
        cases hvp : verify_password ctx.secretMatches pk.secret doc.secret_hash with
        | error e =>
          exfalso
          unfold verify_password hasherVerify at hvp
          rw [hdoc] at hvp
          cases hsm : ctx.secretMatches doc.secret_hash pk.secret <;>
            rw [hsm] at hvp <;> simp at hvp
        | ok b =>
          cases b with
          | false =>
            exact ⟨fun hs => by simp at hs,
              fun _ => Or.inl (audit_log ctx st _ haud),
              fun hd => by simp at hd,
              fun doc' hd hv => by cases hd; exact absurd hv hval,
              fun doc' hd _ _ => by cases hd; exact audit_log ctx st _ haud,
              fun doc' hd _ hvt _ => by cases hd; rw [hvp] at hvt; simp at hvt⟩
          | true =>
            dsimp only
            by_cases hgate :
                (check_rate_limit ctx st pk.project_id pk.key_id
                  defaultRateLimit).1 = false
            · rw [if_pos hgate]
              refine ⟨fun hs => by simp at hs, fun _ => Or.inr ?_,
                fun hd => by simp at hd,
                fun doc' hd hv => by cases hd; exact absurd hv hval,
                fun doc' hd _ hvf => by cases hd; rw [hvp] at hvf; simp at hvf,
                fun doc' hd _ _ _ => by
                  cases hd
                  rw [audit_log ctx _ _ haud, audit_rate]⟩
              rw [audit_log ctx _ _ haud, audit_rate]
            · rw [if_neg hgate]
              refine ⟨fun _ => ?_, fun hn => by simp at hn,
                fun hd => by simp at hd,
                fun doc' hd hv => by cases hd; exact absurd hv hval,
                fun doc' hd _ hvf => by cases hd; rw [hvp] at hvf; simp at hvf,
                fun doc' hd _ _ hg => by cases hd; exact absurd hg hgate⟩
              rw [audit_usage, audit_log ctx _ _ haud, audit_rate]
  · intro hparse
    unfold validate_api_key
    rw [hparse]

theorem C7_witness :
    (validate_api_key ctxOk stEx keyEx).2.audit
      = stEx.audit ++ [mkAuditEvent ctxOk pkEx AuditResult.ok]
    ∧ (validate_api_key ctxOk stEmpty keyEx).2.audit
        = stEmpty.audit ++ [mkAuditEvent ctxOk pkEx AuditResult.denied] :=
  ⟨((C7_audit_exactly_one ctxOk stEx keyEx rfl (by
      intro k d hkd
      by_cases hk : k = apikey_key "p1".data "k1".data
      · rw [show stEx.apikeys k = if k = apikey_key "p1".data "k1".data
            then some docEx else none from rfl, if_pos hk] at hkd
        cases hkd
        decide
      · rw [show stEx.apikeys k = if k = apikey_key "p1".data "k1".data
            then some docEx else none from rfl, if_neg hk] at hkd
        cases hkd)).1 pkEx (by decide)).1 (by decide),
   ((C7_audit_exactly_one ctxOk stEmpty keyEx rfl (by
      intro k d hkd
      simp [stEmpty] at hkd)).1 pkEx (by decide)).2.2.1 (by decide)⟩

/-- Claim C9 (counterexample): with exactly three key ids in the project and
offset 0, limit 3, the sum offset + limit equals the set size, yet the
endpoint emits the cursor 3 instead of null, because the returned slice
size equals the limit. -/
theorem C9_counterexample :
    (stThree.keyset (apiprojectkeys_key "p1".data)).length ≤ 0 + 3
    ∧ (list_keys ctxOk stThree "p1".data 0 3).next = some "3".data := by
  refine ⟨by decide, by decide⟩

/-- Claim C9 (amended): the next cursor is null whenever offset + limit
strictly exceeds the number of key ids in the project's set (at equality the
cursor is emitted although no keys remain). -/
theorem C9_next_none_past_end :
    ∀ (ctx : Ctx) (st : Store) (pid : Str) (offset limit : Nat),
      1 ≤ limit →
      (st.keyset (apiprojectkeys_key pid)).length < offset + limit →
      (list_keys ctx st pid offset limit).next = none := by
  intro ctx st pid off lim hlim hlen
  have hlt : (list_project_keys ctx st pid off lim).length < lim := by
    unfold list_project_keys
    dsimp only
    have h1 := List.length_filterMap_le
      (fun key_id => get_api_key ctx st pid key_id)
      (((st.keyset (apiprojectkeys_key pid)).drop off).take lim)
    rw [List.length_take, List.length_drop] at h1
    omega
  unfold list_keys
  dsimp only
  rw [List.length_map, if_neg (Nat.ne_of_lt hlt)]

theorem C9_witness :
    (list_keys ctxOk stThree "p1".data 3 3).next = none :=
  C9_next_none_past_end ctxOk stThree "p1".data 3 3 (by decide) (by decide)

theorem C2_witness :
    "secret_hash".data
      ∉ validate_response_names (validate_key ctxOk stEx keyEx).1
    ∧ "secret_hash".data
        ∉ list_response_names (list_keys ctxOk stThree "p1".data 0 3) :=
  ⟨(C2_secret_hash_never_returned ctxOk stEx keyEx "p1".data 0 3 docEx []).1,
   (C2_secret_hash_never_returned ctxOk stThree keyEx "p1".data 0 3 docEx
      []).2.1⟩
